import Mathlib

/-!
Verification of the ocipkg repository: a shallow embedding of the CLI glue
found in the repository sources (ocipkg and cargo-ocipkg binaries) together
with models of the library core (Archive Builder, Archive Loader, Local
Store, Image Name parser, Distribution Client push) that the binaries call.
The library implementation itself is not part of the given sources, so those
components are modelled from the design document; definitions taken from the
visible source files keep the source names.
-/

namespace Ocipkg

/-- A blob is an immutable byte sequence, modelled as a list of byte values. -/
abbrev Blob := List Nat

/-- Modelled from the spec: the sha256 streaming content hash of section 3
(ocipkg library code absent from the sources). The spec fixes the digest
algorithm to the single enum value sha256 and states that content equality
is assumed from hash equality (collision risk out of scope), so the hash is
modelled as an injective function from byte sequences to digest values. -/
def hash : Blob → Nat
  | [] => 0
  | x :: xs => Nat.pair x (hash xs) + 1

/-- A digest is modelled by its numeric hash value; the algorithm component
is always sha256. -/
abbrev Digest := Nat

/-- One file of a packed directory: relative path (as path bytes), content
bytes, and the unix permission bits. -/
structure FileEntry where
  path : List Nat
  content : List Nat
  mode : Nat
deriving DecidableEq, Repr

/-- Length-prefixed encoding of a byte sequence, used by the serialization
of a layer. -/
def encBytes (l : List Nat) : List Nat := l.length :: l

/-- Consume one length-prefixed byte sequence, returning it and the rest. -/
def decBytes : List Nat → Option (List Nat × List Nat)
  | [] => none
  | n :: rest => if n ≤ rest.length then some (rest.take n, rest.drop n) else none

/-- Serialization of one file entry: path, content, mode. -/
def encFile (f : FileEntry) : List Nat :=
  encBytes f.path ++ encBytes f.content ++ [f.mode]

/-- Consume one serialized file entry. -/
def decFile (l : List Nat) : Option (FileEntry × List Nat) := do
  let (p, r₁) ← decBytes l
  let (c, r₂) ← decBytes r₁
  match r₂ with
  | m :: r₃ => some (⟨p, c, m⟩, r₃)
  | [] => none

/-- Serialization of a directory tree (a list of file entries): count, then
each entry in order. Modelled from the spec: the layer blob is a tar stream
representing the filesystem tree, preserving relative paths, contents and
permissions (section 3, Layer). -/
def encDir (d : List FileEntry) : Blob :=
  d.length :: (d.map encFile).flatten

/-- Consume a given number of serialized file entries. -/
def decFiles : Nat → List Nat → Option (List FileEntry × List Nat)
  | 0, l => some ([], l)
  | n + 1, l => do
    let (f, r) ← decFile l
    let (fs, r') ← decFiles n r
    some (f :: fs, r')

/-- Decode a layer blob back into the directory tree it serializes. -/
def decDir (b : Blob) : Option (List FileEntry) :=
  match b with
  | [] => none
  | n :: rest =>
    match decFiles n rest with
    | some (fs, []) => some fs
    | _ => none

/-- Media type of a blob, per the OCI data model of section 3. -/
inductive MediaType
  | config
  | layerTar
  | manifest
deriving DecidableEq, Repr

/-- Numeric code of a media type, for serialization. -/
def MediaType.code : MediaType → Nat
  | .config => 0
  | .layerTar => 1
  | .manifest => 2

/-- Decode a media type code. -/
def mediaTypeOfCode (n : Nat) : Option MediaType :=
  if n = 0 then some .config
  else if n = 1 then some .layerTar
  else if n = 2 then some .manifest
  else none

/-- A descriptor identifies a blob without containing it: media type,
digest and size (section 3, Descriptor). -/
structure Descriptor where
  mediaType : MediaType
  digest : Digest
  size : Nat
deriving DecidableEq, Repr

/-- Serialization of a descriptor: three numbers. -/
def encDescriptor (d : Descriptor) : List Nat :=
  [d.mediaType.code, d.digest, d.size]

/-- Consume one serialized descriptor. -/
def decDescriptor : List Nat → Option (Descriptor × List Nat)
  | mt :: dg :: sz :: rest => (mediaTypeOfCode mt).map fun m => (⟨m, dg, sz⟩, rest)
  | _ => none

/-- A manifest references a config blob and an ordered list of layer blobs
(section 3, Manifest). -/
structure Manifest where
  config : Descriptor
  layers : List Descriptor
deriving DecidableEq, Repr

/-- Serialization of a manifest blob: config descriptor, then the layer
count and each layer descriptor in order. -/
def encManifest (m : Manifest) : Blob :=
  encDescriptor m.config ++ m.layers.length :: (m.layers.map encDescriptor).flatten

/-- Consume a given number of serialized descriptors. -/
def decDescriptors : Nat → List Nat → Option (List Descriptor × List Nat)
  | 0, l => some ([], l)
  | n + 1, l => do
    let (d, r) ← decDescriptor l
    let (ds, r') ← decDescriptors n r
    some (d :: ds, r')

/-- Decode a manifest blob. -/
def decManifest (b : Blob) : Option Manifest :=
  match decDescriptor b with
  | none => none
  | some (c, r) =>
    match r with
    | [] => none
    | n :: r₁ =>
      match decDescriptors n r₁ with
      | some (ls, []) => some ⟨c, ls⟩
      | _ => none

/-- One entry of the OCI index: a manifest descriptor annotated with the
image name it is registered under. -/
structure IndexEntry where
  manifestDesc : Descriptor
  name : String
deriving DecidableEq, Repr

/-- The OCI index, root of an OCI-layout archive (section 3, Index). -/
structure Index where
  manifests : List IndexEntry
deriving DecidableEq, Repr

/-- Structural model of an OCI-layout tar archive: the oci-layout file
holds the layout version string, index.json holds the index, and each
blob entry sits at path blobs/sha256/(hex of its digest), so the digest
component of a blob entry is the digest embedded in its filename
(section 6, Archive file format). -/
structure OciArchive where
  layoutVersion : String
  index : Index
  blobs : List (Digest × Blob)
deriving DecidableEq, Repr

/-- Append a blob to the write history unless a blob with the same digest
was already written: the pre-check of write history by digest before
appending a new blob entry (section 4.1). -/
def addBlob (pool : List (Digest × Blob)) (b : Blob) : List (Digest × Blob) :=
  if pool.any fun p => p.1 = hash b then pool else pool ++ [(hash b, b)]

/-- The descriptor of a blob: its media type, content digest and size. -/
def descriptorOf (mt : MediaType) (b : Blob) : Descriptor :=
  ⟨mt, hash b, b.length⟩

/-- Modelled from the spec: the Archive Builder (section 4.1); the symbol
ocipkg::image::Builder is absent from the sources. Each appended directory
tree becomes one layer blob; after all layers are written the builder
writes the config blob, then the manifest blob referencing config and
layers in append order, and finally an index whose single entry maps the
image name to the manifest digest. Blob entries are deduplicated by
digest via the write-history pre-check. -/
def build (name : String) (cfg : Blob) (layers : List (List FileEntry)) : OciArchive :=
  let layerBlobs := layers.map encDir
  let manifest : Manifest :=
    ⟨descriptorOf .config cfg, layerBlobs.map (descriptorOf .layerTar)⟩
  let mBlob := encManifest manifest
  { layoutVersion := "1.0.0"
    index := ⟨[⟨descriptorOf .manifest mBlob, name⟩]⟩
    blobs := addBlob (addBlob (layerBlobs.foldl addBlob []) cfg) mBlob }

/-- The Local Store: image name to manifest digest entries plus the shared
digest-addressed blob pool (section 3, Local Store entry). -/
structure Store where
  images : List (String × Digest)
  blobs : List (Digest × Blob)
deriving DecidableEq, Repr

/-- The empty Local Store. -/
def Store.empty : Store := ⟨[], []⟩

/-- Look a blob up in a pool by digest. -/
def lookupBlob (pool : List (Digest × Blob)) (d : Digest) : Option Blob :=
  (pool.find? fun p => p.1 = d).map fun p => p.2

/-- Idempotent insertion into the blob pool: an existing blob with the
same digest is left untouched, not rewritten (section 4.2). -/
def insertBlob (pool : List (Digest × Blob)) (e : Digest × Blob) : List (Digest × Blob) :=
  if pool.any fun p => p.1 = e.1 then pool else pool ++ [e]

/-- Register an image name under a manifest digest; re-registering the same
name overwrites the previous entry, last writer wins (section 4.3). -/
def registerImage (imgs : List (String × Digest)) (e : String × Digest) :
    List (String × Digest) :=
  (imgs.filter fun p => p.1 ≠ e.1) ++ [e]

/-- The error taxonomy of section 7. -/
inductive OcipkgError
  | invalidName
  | alreadyExists
  | ioError
  | digestMismatch
  | notFound
  | authFailure
  | protocolError
  | networkError
deriving DecidableEq, Repr

/-- A manifest is complete with respect to a pool when its config blob and
every layer blob are present. -/
def manifestComplete (pool : List (Digest × Blob)) (m : Manifest) : Bool :=
  (lookupBlob pool m.config.digest).isSome &&
    m.layers.all fun l => (lookupBlob pool l.digest).isSome

/-- An index entry resolves against a pool when its manifest blob is
present, decodes, and the decoded manifest is complete. -/
def entryResolves (pool : List (Digest × Blob)) (e : IndexEntry) : Bool :=
  match lookupBlob pool e.manifestDesc.digest with
  | none => false
  | some b =>
    match decManifest b with
    | none => false
    | some m => manifestComplete pool m

/-- Modelled from the spec: the Archive Loader (section 4.2); the symbol
ocipkg::image::load is absent from the sources. Validates the oci-layout
marker, re-hashes every blob entry against the digest embedded in its
filename (any mismatch fails the whole load with DigestMismatch), checks
that every indexed manifest resolves, and on success registers every
image named in the index and inserts every blob idempotently into the
shared pool. -/
def load (a : OciArchive) (s : Store) : Except OcipkgError Store :=
  if a.layoutVersion ≠ "1.0.0" then .error .ioError
  else if ¬ (a.blobs.all fun p => hash p.2 = p.1) then .error .digestMismatch
  else if ¬ (a.index.manifests.all fun e => entryResolves a.blobs e) then
    .error .notFound
  else .ok
    { images := a.index.manifests.foldl (fun imgs e =>
        registerImage imgs (e.name, e.manifestDesc.digest)) s.images
      blobs := a.blobs.foldl insertBlob s.blobs }

/-- The store a load leaves behind: the new store on success, the old
store untouched on failure. -/
def loadOrKeep (a : OciArchive) (s : Store) : Store :=
  match load a s with
  | .ok s' => s'
  | .error _ => s

/-- Overlay one layer over a base tree: files of the layer replace files
of the base with the same path (later layers overlay earlier ones,
section 3, Manifest). -/
def overlayLayer (base layer : List FileEntry) : List FileEntry :=
  (base.filter fun f => ¬ layer.any fun g => g.path = f.path) ++ layer

/-- Apply the layers of an image in order, starting from the empty tree. -/
def applyLayers (ls : List (List FileEntry)) : List FileEntry :=
  ls.foldl overlayLayer []

/-- Decode the layer blobs named by a list of descriptors, in order. -/
def decodeLayers (pool : List (Digest × Blob)) : List Descriptor → Option (List (List FileEntry))
  | [] => some []
  | l :: ls => do
    let b ← lookupBlob pool l.digest
    let d ← decDir b
    let ds ← decodeLayers pool ls
    some (d :: ds)

/-- Extract the file tree of a stored image: follow the name to the
manifest digest, decode the manifest blob, decode every layer blob and
apply the layers in order. -/
def extractImage (s : Store) (name : String) : Option (List FileEntry) := do
  let e ← s.images.find? fun p => p.1 = name
  let mb ← lookupBlob s.blobs e.2
  let m ← decManifest mb
  let layers ← decodeLayers s.blobs m.layers
  some (applyLayers layers)

/-- A pool is well formed when every entry's bytes hash to its digest key. -/
def poolWf (pool : List (Digest × Blob)) : Prop :=
  ∀ p ∈ pool, hash p.2 = p.1

/-- The blob pool written by a build of one directory layer. -/
def buildPool (cfg : Blob) (lb mBlob : Blob) : List (Digest × Blob) :=
  addBlob (addBlob (addBlob [] lb) cfg) mBlob

/-- The manifest a single-layer build composes. -/
def buildManifest (cfg lb : Blob) : Manifest :=
  ⟨descriptorOf .config cfg, [descriptorOf .layerTar lb]⟩

/-- Events of one push operation, in the order they go over the wire. -/
inductive PushEvent
  | headBlob (d : Digest)
  | postSession (d : Digest)
  | putBlob (d : Digest)
  | putManifest
deriving DecidableEq, Repr

/-- Modelled from the spec: per-blob transfer of the push protocol
(section 4.4 step 3); the symbol ocipkg::distribution::push_image is
absent from the sources. Each referenced blob is checked for remote
presence with a HEAD request; a blob not already present is uploaded by
obtaining an upload session and putting the bytes. -/
def pushBlobEvents (remote : List Digest) (d : Digest) : List PushEvent :=
  if d ∈ remote then [.headBlob d]
  else [.headBlob d, .postSession d, .putBlob d]

/-- Modelled from the spec: push_image (section 4.4 step 3); the symbol
ocipkg::distribution::push_image is absent from the sources. All blobs
referenced by the manifest are confirmed or uploaded first, and the
manifest PUT is issued last. -/
def push_image (referenced remote : List Digest) : List PushEvent :=
  (referenced.map (pushBlobEvents remote)).flatten ++ [.putManifest]

/-- Image reference: a mutable tag or an immutable digest (section 3). -/
inductive Reference
  | tag (t : String)
  | digestRef (d : String)
deriving DecidableEq, Repr

/-- Structured image name: registry, repository and reference
(section 3, ImageName). -/
structure ImageName where
  registry : String
  repository : String
  reference : Reference
deriving DecidableEq, Repr

/-- Character class of repository and tag components: lowercase
alphanumerics plus dot, underscore and hyphen (section 3). -/
def isNameChar (c : Char) : Bool :=
  c.isLower || c.isDigit || c = '.' || c = '_' || c = '-'

/-- A repository or tag segment: nonempty, all name characters. -/
def isSegment (s : List Char) : Bool :=
  !s.isEmpty && s.all isNameChar

/-- Characters allowed in a registry host: lowercase alphanumerics, dot,
hyphen, and colon for a port. -/
def isRegistryChar (c : Char) : Bool :=
  c.isLower || c.isDigit || c = '.' || c = '-' || c = ':'

/-- A registry host: nonempty, all registry characters. -/
def isRegistry (s : List Char) : Bool :=
  !s.isEmpty && s.all isRegistryChar

/-- A repository: slash-separated nonempty name segments (section 3). -/
def isRepository (s : List Char) : Bool :=
  !s.isEmpty && (s.splitOn '/').all isSegment

/-- Lowercase hexadecimal characters. -/
def isHexChar (c : Char) : Bool :=
  c.isDigit || ('a' ≤ c && c ≤ 'f')

/-- Split a character list at the first occurrence of a separator,
returning the parts before and after it. -/
def splitFirst (sep : Char) : List Char → Option (List Char × List Char)
  | [] => none
  | c :: cs =>
    if c = sep then some ([], cs)
    else (splitFirst sep cs).map fun p => (c :: p.1, p.2)

/-- A digest reference must be algorithm colon hex with the supported
algorithm sha256 and a nonempty lowercase hex value (section 3). -/
def isValidReference : Reference → Bool
  | .tag t => isSegment t.toList
  | .digestRef d =>
    match splitFirst ':' d.toList with
    | some (alg, hex) => alg = "sha256".toList && !hex.isEmpty && hex.all isHexChar
    | none => false

/-- Modelled from the spec: ImageName parse (sections 2 and 3); the symbol
ocipkg::ImageName::parse is absent from the sources. Parses text of the
form registry slash repository, optionally followed by at-digest or
colon-tag (a name with neither gets the default tag latest), validating
each part against the registry naming rules; any violation fails with
InvalidName. -/
def ImageName.parse (s : String) : Except OcipkgError ImageName :=
  match splitFirst '/' s.toList with
  | none => .error .invalidName
  | some (reg, rest) =>
    let (repoChars, ref) :=
      match splitFirst '@' rest with
      | some (repo, dg) => (repo, Reference.digestRef (String.mk dg))
      | none =>
        match splitFirst ':' rest with
        | some (repo, tg) => (repo, Reference.tag (String.mk tg))
        | none => (rest, Reference.tag "latest")
    if isRegistry reg && isRepository repoChars && isValidReference ref then
      .ok ⟨String.mk reg, String.mk repoChars, ref⟩
    else
      .error .invalidName

/-- Encoding of a reference as a pair of path segments, keeping tag and
digest references apart. -/
def refSegments : Reference → List String
  | .tag t => ["tag", t]
  | .digestRef d => ["digest", d]

/-- Modelled from the spec: image_dir of the Local Store (section 4.3);
the symbol ocipkg::local::image_dir is absent from the sources. The
image directory is the path derived from the normalized encoding of the
name: registry, repository, then the reference segments. -/
def image_dir (n : ImageName) : List String :=
  [n.registry, n.repository] ++ refSegments n.reference

/-- The blob pool written by a build with an arbitrary list of layers. -/
def buildPoolMulti (cfg : Blob) (lbs : List Blob) (mBlob : Blob) : List (Digest × Blob) :=
  addBlob (addBlob (lbs.foldl addBlob []) cfg) mBlob

/-- The manifest a build composes from its config and layer blobs. -/
def buildManifestMulti (cfg : Blob) (lbs : List Blob) : Manifest :=
  ⟨descriptorOf .config cfg, lbs.map (descriptorOf .layerTar)⟩

/-- A filesystem path: parent components and a final file name, as handed
to the Pack subcommand. -/
structure RPath where
  parent : List String
  fileName : String
deriving DecidableEq, Repr

/-- Split a character list at the last occurrence of a separator. -/
def splitLast (sep : Char) (l : List Char) : Option (List Char × List Char) :=
  (splitFirst sep l.reverse).map fun p => (p.2.reverse, p.1.reverse)

/-- Stem and extension of a file name, following the PathBuf rules: the
extension is the portion after the final dot, except that a name with no
dot, or a name whose only dot is a leading one, has no extension. -/
def splitExtension (name : List Char) : List Char × Option (List Char) :=
  match splitLast '.' name with
  | none => (name, none)
  | some (before, after) =>
    if before.isEmpty then (name, none) else (before, some after)

/-- Embedding of PathBuf set_extension as called by the Pack subcommand:
the file name's current extension, if any, is replaced by the given one,
otherwise the extension is appended. -/
def setExtension (p : RPath) (ext : String) : RPath :=
  ⟨p.parent, String.mk ((splitExtension p.fileName.toList).1 ++ '.' :: ext.toList)⟩

/-- Rendering of a path for the panic message of the Pack subcommand. -/
def display (p : RPath) : String :=
  String.intercalate "/" (p.parent ++ [p.fileName])

/-- Outcome of one Pack invocation: a process panic, an error return, or
success carrying the path of the created archive. -/
inductive PackOutcome
  | panicked (msg : String)
  | failed (e : OcipkgError)
  | ok (created : RPath)
deriving DecidableEq, Repr

/-- Embedding of the Pack subcommand body of src/src/bin/ocipkg.rs: the
output path's extension is set to tar, then the command panics if that
path exists, creates the output file (a filesystem failure is an
IoError), parses the tag when one is given, and appends the input
directory (a missing or unreadable input is an IoError). The booleans
createOk and inputReadable are the oracles for the two fallible
filesystem calls. -/
def pack (exists? : RPath → Bool) (createOk : Bool) (inputReadable : Bool)
    (tag : Option String) (output : RPath) : PackOutcome :=
  let out := setExtension output "tar"
  if exists? out then .panicked ("Output already exists: " ++ display out)
  else if !createOk then .failed .ioError
  else
    match tag with
    | some t =>
      match ImageName.parse t with
      | .error e => .failed e
      | .ok _ => if inputReadable then .ok out else .failed .ioError
    | none => if inputReadable then .ok out else .failed .ioError

/-- Whether a Pack outcome is the overwrite-refusing panic. -/
def isAbort : PackOutcome → Bool
  | .panicked _ => true
  | _ => false

/-- One cargo build target: its name and crate types, from the package
metadata consumed by cargo-ocipkg. -/
structure Target where
  name : String
  crate_types : List String
deriving DecidableEq, Repr

/-- The hyphen-to-underscore rewrite applied to a target name when
forming the library file name. -/
def underscored (s : String) : String :=
  String.map (fun c => if c = '-' then '_' else c) s

/-- One step of the crate-type loop of cargo-ocipkg build: staticlib
pushes the static library path, cdylib pushes the shared library path,
any other crate type is skipped. -/
def targetStep (buildDir : List String) (nm : String) (acc : List RPath)
    (ty : String) : List RPath :=
  if ty = "staticlib" then acc ++ [⟨buildDir, "lib" ++ underscored nm ++ ".a"⟩]
  else if ty = "cdylib" then acc ++ [⟨buildDir, "lib" ++ underscored nm ++ ".so"⟩]
  else acc

/-- Embedding of the file-collection loop of the Build arm of
src/src/bin/cargo-ocipkg.rs: fold the crate types of one target. -/
def targetFiles (buildDir : List String) (t : Target) : List RPath :=
  t.crate_types.foldl (targetStep buildDir t.name) []

/-- Outcome of processing one target: a process panic or the list of
files handed to the archive builder. -/
inductive TargetPack
  | panicked (msg : String)
  | packed (files : List RPath)
deriving DecidableEq, Repr

/-- Embedding of the per-target body of the Build arm of
src/src/bin/cargo-ocipkg.rs: if no file was collected the process
panics, otherwise the collected files are packed. -/
def processTarget (buildDir : List String) (t : Target) : TargetPack :=
  if (targetFiles buildDir t).isEmpty then
    .panicked "No target exists for packing. Only staticlib or cdylib are suppoted."
  else .packed (targetFiles buildDir t)

/-- A cargo package, identified by name. -/
structure Package where
  name : String
deriving DecidableEq, Repr

/-- The slice of cargo metadata consulted by get_package: the workspace
packages and the optional root package. -/
structure Metadata where
  workspacePackages : List Package
  rootPackage : Option Package
deriving DecidableEq, Repr

/-- Outcome of package selection: a package or a process panic. -/
inductive PackageResult
  | pkg (p : Package)
  | panicked (msg : String)
deriving DecidableEq, Repr

/-- Embedding of get_package from src/src/bin/cargo-ocipkg.rs: a supplied
package name is looked up among the workspace packages first (the loop
returns the first match); otherwise the root package is returned when it
exists; otherwise the process panics. -/
def get_package (m : Metadata) (package_name : Option String) : PackageResult :=
  match package_name with
  | some n =>
    match m.workspacePackages.find? fun p => p.name = n with
    | some p => .pkg p
    | none =>
      match m.rootPackage with
      | some p => .pkg p
      | none => .panicked "Target package is not specified."
  | none =>
    match m.rootPackage with
    | some p => .pkg p
    | none => .panicked "Target package is not specified."

theorem hash_injective : Function.Injective hash := by
  intro a b h
  induction a generalizing b with
  | nil => cases b with
    | nil => rfl
    | cons y ys => simp [hash] at h
  | cons x xs ih =>
    cases b with
    | nil => simp [hash] at h
    | cons y ys =>
      simp only [hash, Nat.add_right_cancel_iff, Nat.pair_eq_pair] at h
      rw [h.1, ih h.2]

theorem decBytes_encBytes (l r : List Nat) :
    decBytes (encBytes l ++ r) = some (l, r) := by
  simp [encBytes, decBytes, List.take_left, List.drop_left]

theorem decFile_encFile (f : FileEntry) (r : List Nat) :
    decFile (encFile f ++ r) = some (f, r) := by
  simp [encFile, decFile, List.append_assoc, decBytes_encBytes]

theorem decFiles_encoded (d : List FileEntry) (r : List Nat) :
    decFiles d.length ((d.map encFile).flatten ++ r) = some (d, r) := by
  induction d generalizing r with
  | nil => simp [decFiles]
  | cons f fs ih =>
    simp [decFiles, List.append_assoc, decFile_encFile, ih]

theorem decDir_encDir (d : List FileEntry) : decDir (encDir d) = some d := by
  have h := decFiles_encoded d []
  simp only [List.append_nil] at h
  simp [encDir, decDir, h]

theorem decDescriptor_encDescriptor (d : Descriptor) (r : List Nat) :
    decDescriptor (encDescriptor d ++ r) = some (d, r) := by
  cases d with
  | mk mt dg sz => cases mt <;>
      simp [encDescriptor, decDescriptor, MediaType.code, mediaTypeOfCode]

theorem decDescriptors_encoded (ds : List Descriptor) (r : List Nat) :
    decDescriptors ds.length ((ds.map encDescriptor).flatten ++ r) = some (ds, r) := by
  induction ds generalizing r with
  | nil => simp [decDescriptors]
  | cons d ds ih =>
    simp [decDescriptors, List.append_assoc, decDescriptor_encDescriptor, ih]

theorem decManifest_encManifest (m : Manifest) :
    decManifest (encManifest m) = some m := by
  have h := decDescriptors_encoded m.layers []
  simp only [List.append_nil] at h
  simp [encManifest, decManifest, decDescriptor_encDescriptor, h]

theorem poolWf_nil : poolWf [] := by
  intro p hp
  cases hp

theorem lookupBlob_cons (p : Digest × Blob) (pool : List (Digest × Blob)) (d : Digest) :
    lookupBlob (p :: pool) d = if p.1 = d then some p.2 else lookupBlob pool d := by
  by_cases h : p.1 = d
  · simp [lookupBlob, List.find?_cons_of_pos, h]
  · simp [lookupBlob, List.find?_cons_of_neg, h]

theorem lookupBlob_append_some {pool : List (Digest × Blob)} {d : Digest} {c : Blob}
    (l : List (Digest × Blob)) (h : lookupBlob pool d = some c) :
    lookupBlob (pool ++ l) d = some c := by
  induction pool with
  | nil => simp [lookupBlob] at h
  | cons p ps ih =>
    rw [List.cons_append, lookupBlob_cons]
    rw [lookupBlob_cons] at h
    by_cases hc : p.1 = d
    · rw [if_pos hc] at h ⊢
      exact h
    · rw [if_neg hc] at h ⊢
      exact ih h

theorem lookupBlob_append_none {pool : List (Digest × Blob)} {d : Digest}
    (l : List (Digest × Blob)) (h : lookupBlob pool d = none) :
    lookupBlob (pool ++ l) d = lookupBlob l d := by
  induction pool with
  | nil => simp
  | cons p ps ih =>
    rw [List.cons_append, lookupBlob_cons]
    rw [lookupBlob_cons] at h
    by_cases hc : p.1 = d
    · rw [if_pos hc] at h
      cases h
    · rw [if_neg hc] at h ⊢
      exact ih h

theorem lookupBlob_isSome_iff_any (pool : List (Digest × Blob)) (d : Digest) :
    (lookupBlob pool d).isSome = pool.any fun p => p.1 = d := by
  induction pool with
  | nil => simp [lookupBlob]
  | cons p ps ih =>
    rw [lookupBlob_cons]
    by_cases h : p.1 = d
    · simp [h]
    · simp [h, ih]

theorem lookupBlob_eq_of_wf {pool : List (Digest × Blob)} (hwf : poolWf pool)
    {b c : Blob} (h : lookupBlob pool (hash b) = some c) : c = b := by
  induction pool with
  | nil => simp [lookupBlob] at h
  | cons p ps ih =>
    rw [lookupBlob_cons] at h
    split at h
    · have hp : hash p.2 = p.1 := hwf p (by simp)
      have : hash c = hash b := by
        cases h
        rw [hp]
        assumption
      exact hash_injective this
    · exact ih (fun q hq => hwf q (by simp [hq])) h

theorem poolWf_addBlob {pool : List (Digest × Blob)} (h : poolWf pool) (b : Blob) :
    poolWf (addBlob pool b) := by
  unfold addBlob
  split
  · exact h
  · intro p hp
    rcases List.mem_append.1 hp with hl | hr
    · exact h p hl
    · simp only [List.mem_singleton] at hr
      rw [hr]

theorem poolWf_foldl {pool : List (Digest × Blob)} (h : poolWf pool) (bs : List Blob) :
    poolWf (bs.foldl addBlob pool) := by
  induction bs generalizing pool with
  | nil => exact h
  | cons b bs ih => exact ih (poolWf_addBlob h b)

theorem lookupBlob_addBlob_self {pool : List (Digest × Blob)} (hwf : poolWf pool)
    (b : Blob) : lookupBlob (addBlob pool b) (hash b) = some b := by
  unfold addBlob
  split
  · rename_i hany
    have hsome : (lookupBlob pool (hash b)).isSome := by
      rw [lookupBlob_isSome_iff_any, hany]
    obtain ⟨c, hc⟩ := Option.isSome_iff_exists.1 hsome
    rw [hc, lookupBlob_eq_of_wf hwf hc]
  · rename_i hany
    have hnone : lookupBlob pool (hash b) = none := by
      have := lookupBlob_isSome_iff_any pool (hash b)
      rw [eq_false_of_ne_true hany] at this
      exact Option.not_isSome_iff_eq_none.1 (by simp [this])
    rw [lookupBlob_append_none _ hnone, lookupBlob_cons]
    simp

theorem lookupBlob_mono_addBlob {pool : List (Digest × Blob)} {d : Digest} {c : Blob}
    (h : lookupBlob pool d = some c) (b : Blob) :
    lookupBlob (addBlob pool b) d = some c := by
  unfold addBlob
  split
  · exact h
  · exact lookupBlob_append_some _ h

theorem lookupBlob_mono_foldl {pool : List (Digest × Blob)} {d : Digest} {c : Blob}
    (h : lookupBlob pool d = some c) (bs : List Blob) :
    lookupBlob (bs.foldl addBlob pool) d = some c := by
  induction bs generalizing pool with
  | nil => exact h
  | cons b bs ih => exact ih (lookupBlob_mono_addBlob h b)

theorem lookupBlob_foldl_mem {pool : List (Digest × Blob)} (hwf : poolWf pool)
    {b : Blob} {bs : List Blob} (hb : b ∈ bs) :
    lookupBlob (bs.foldl addBlob pool) (hash b) = some b := by
  induction bs generalizing pool with
  | nil => cases hb
  | cons x xs ih =>
    rcases List.mem_cons.1 hb with h | h
    · subst h
      exact lookupBlob_mono_foldl (lookupBlob_addBlob_self hwf b) xs
    · exact ih (poolWf_addBlob hwf x) h

theorem nodupKeys_addBlob {pool : List (Digest × Blob)}
    (h : (pool.map Prod.fst).Nodup) (b : Blob) :
    ((addBlob pool b).map Prod.fst).Nodup := by
  unfold addBlob
  split
  · exact h
  · rename_i hany
    rw [List.map_append]
    refine List.nodup_append.2 ⟨h, by simp, ?_⟩
    intro a ha hb
    simp only [List.map_cons, List.map_nil, List.mem_singleton] at hb
    subst hb
    obtain ⟨p, hp, hpa⟩ := List.mem_map.1 ha
    have : pool.any (fun p => p.1 = hash b) = true :=
      List.any_eq_true.2 ⟨p, hp, by simp [hpa]⟩
    exact hany this

theorem nodupKeys_foldl {pool : List (Digest × Blob)}
    (h : (pool.map Prod.fst).Nodup) (bs : List Blob) :
    ((bs.foldl addBlob pool).map Prod.fst).Nodup := by
  induction bs generalizing pool with
  | nil => exact h
  | cons b bs ih => exact ih (nodupKeys_addBlob h b)

theorem foldl_insertBlob_eq_append {pool acc : List (Digest × Blob)}
    (h : (acc.map Prod.fst ++ pool.map Prod.fst).Nodup) :
    pool.foldl insertBlob acc = acc ++ pool := by
  induction pool generalizing acc with
  | nil => simp
  | cons e rest ih =>
    have hparts := List.nodup_append.1 (by simpa using h)
    have hkey : acc.any (fun p => p.1 = e.1) = false := by
      rw [List.any_eq_false]
      intro p hp
      simp only [decide_eq_true_eq]
      intro hpe
      exact hparts.2.2 (List.mem_map.2 ⟨p, hp, hpe⟩) (by simp)
    have hins : insertBlob acc e = acc ++ [e] := by
      unfold insertBlob
      rw [hkey]
      simp
    rw [List.foldl_cons, hins]
    have h' : ((acc ++ [e]).map Prod.fst ++ rest.map Prod.fst).Nodup := by
      simp only [List.map_append, List.append_assoc]
      simpa [List.append_assoc] using h
    rw [ih h']
    simp

theorem build_singleLayer (name : String) (cfg : Blob) (D : List FileEntry) :
    build name cfg [D] =
      { layoutVersion := "1.0.0"
        index := ⟨[⟨descriptorOf .manifest (encManifest (buildManifest cfg (encDir D))), name⟩]⟩
        blobs := buildPool cfg (encDir D) (encManifest (buildManifest cfg (encDir D))) } := by
  simp [build, buildPool, buildManifest]

theorem buildPool_wf (cfg lb mBlob : Blob) : poolWf (buildPool cfg lb mBlob) :=
  poolWf_addBlob (poolWf_addBlob (poolWf_addBlob poolWf_nil lb) cfg) mBlob

theorem buildPool_lookup_layer (cfg lb mBlob : Blob) :
    lookupBlob (buildPool cfg lb mBlob) (hash lb) = some lb :=
  lookupBlob_mono_addBlob
    (lookupBlob_mono_addBlob (lookupBlob_addBlob_self poolWf_nil lb) cfg) mBlob

theorem buildPool_lookup_cfg (cfg lb mBlob : Blob) :
    lookupBlob (buildPool cfg lb mBlob) (hash cfg) = some cfg :=
  lookupBlob_mono_addBlob
    (lookupBlob_addBlob_self (poolWf_addBlob poolWf_nil lb) cfg) mBlob

theorem buildPool_lookup_manifest (cfg lb mBlob : Blob) :
    lookupBlob (buildPool cfg lb mBlob) (hash mBlob) = some mBlob :=
  lookupBlob_addBlob_self (poolWf_addBlob (poolWf_addBlob poolWf_nil lb) cfg) mBlob

theorem buildPool_nodupKeys (cfg lb mBlob : Blob) :
    ((buildPool cfg lb mBlob).map Prod.fst).Nodup :=
  nodupKeys_addBlob (nodupKeys_addBlob (nodupKeys_addBlob (by simp) lb) cfg) mBlob

theorem manifestComplete_of_lookups {pool : List (Digest × Blob)} {m : Manifest}
    (hc : (lookupBlob pool m.config.digest).isSome)
    (hl : ∀ l ∈ m.layers, (lookupBlob pool l.digest).isSome) :
    manifestComplete pool m = true := by
  unfold manifestComplete
  rw [Bool.and_eq_true]
  constructor
  · exact hc
  · rw [List.all_eq_true]
    intro l hll
    exact hl l hll

theorem entryResolves_of {pool : List (Digest × Blob)} {e : IndexEntry}
    {b : Blob} {m : Manifest}
    (hb : lookupBlob pool e.manifestDesc.digest = some b)
    (hd : decManifest b = some m)
    (hm : manifestComplete pool m = true) :
    entryResolves pool e = true := by
  simp only [entryResolves, hb, hd]
  exact hm

/-- C1: packing a directory with the Archive Builder and loading the
resulting archive through the same (fresh) Local Store succeeds and
reproduces the directory's file entries byte-for-byte, permission bits
included. -/
theorem build_load_roundtrip (D : List FileEntry) (name : String) (cfg : Blob) :
    ∃ s', load (build name cfg [D]) Store.empty = .ok s' ∧
      extractImage s' name = some D := by
  refine ⟨{ images := [(name, hash (encManifest (buildManifest cfg (encDir D))))]
            blobs := buildPool cfg (encDir D) (encManifest (buildManifest cfg (encDir D))) },
          ?_, ?_⟩
  · rw [build_singleLayer]
    have hall : ((buildPool cfg (encDir D) (encManifest (buildManifest cfg (encDir D)))).all
        fun p => hash p.2 = p.1) = true := by
      rw [List.all_eq_true]
      intro p hp
      exact decide_eq_true (buildPool_wf _ _ _ p hp)
    have hres : entryResolves (buildPool cfg (encDir D) (encManifest (buildManifest cfg (encDir D))))
        ⟨descriptorOf .manifest (encManifest (buildManifest cfg (encDir D))), name⟩ = true := by
      refine @entryResolves_of _ _ (encManifest (buildManifest cfg (encDir D)))
        (buildManifest cfg (encDir D)) ?_ (decManifest_encManifest _) ?_
      · exact buildPool_lookup_manifest cfg (encDir D) _
      · refine manifestComplete_of_lookups ?_ ?_
        · show (lookupBlob _ (hash cfg)).isSome
          rw [buildPool_lookup_cfg]
          rfl
        · intro l hl
          have : l = descriptorOf .layerTar (encDir D) := by
            simpa [buildManifest] using hl
          subst this
          show (lookupBlob _ (hash (encDir D))).isSome
          rw [buildPool_lookup_layer]
          rfl
    have hall2 : (([⟨descriptorOf .manifest (encManifest (buildManifest cfg (encDir D))), name⟩] :
        List IndexEntry).all fun e =>
          entryResolves (buildPool cfg (encDir D) (encManifest (buildManifest cfg (encDir D)))) e)
        = true := by
      simp [hres]
    have hfold : (buildPool cfg (encDir D) (encManifest (buildManifest cfg (encDir D)))).foldl
        insertBlob ([] : List (Digest × Blob)) =
        buildPool cfg (encDir D) (encManifest (buildManifest cfg (encDir D))) := by
      have := @foldl_insertBlob_eq_append
        (buildPool cfg (encDir D) (encManifest (buildManifest cfg (encDir D))))
        ([] : List (Digest × Blob))
        (by simpa using buildPool_nodupKeys cfg (encDir D) _)
      simpa using this
    simp only [load]
    rw [if_neg (not_not_intro rfl), if_neg (not_not_intro hall), if_neg (not_not_intro hall2)]
    simp [Store.empty, registerImage, hfold, descriptorOf]
  · simp [extractImage, buildPool_lookup_manifest, decManifest_encManifest, buildManifest,
      descriptorOf, buildPool_lookup_layer, decDir_encDir, applyLayers, overlayLayer,
      decodeLayers]

/-- C2: loading an archive in which some blob's bytes do not hash to the
digest embedded in its blob filename fails with DigestMismatch, and the
Local Store is left unchanged: no image registration and no blob
insertion from that archive becomes visible. -/
theorem load_digest_mismatch (a : OciArchive) (s : Store)
    (hlayout : a.layoutVersion = "1.0.0")
    (hbad : ∃ p ∈ a.blobs, hash p.2 ≠ p.1) :
    load a s = .error .digestMismatch ∧ loadOrKeep a s = s := by
  have hall : (a.blobs.all fun p => hash p.2 = p.1) = false := by
    rw [List.all_eq_false]
    obtain ⟨p, hp, hne⟩ := hbad
    exact ⟨p, hp, by simpa using hne⟩
  have hload : load a s = .error .digestMismatch := by
    unfold load
    rw [if_neg (not_not_intro hlayout), if_pos (by simp [hall])]
  refine ⟨hload, ?_⟩
  unfold loadOrKeep
  rw [hload]

theorem load_digest_mismatch_witness :
    load ⟨"1.0.0", ⟨[]⟩, [(999, [1])]⟩ Store.empty = .error .digestMismatch ∧
      loadOrKeep ⟨"1.0.0", ⟨[]⟩, [(999, [1])]⟩ Store.empty = Store.empty :=
  load_digest_mismatch ⟨"1.0.0", ⟨[]⟩, [(999, [1])]⟩ Store.empty rfl
    ⟨(999, [1]), by decide, by decide⟩

theorem putManifest_not_mem_pushBlobEvents (remote : List Digest) (d : Digest) :
    PushEvent.putManifest ∉ pushBlobEvents remote d := by
  unfold pushBlobEvents
  split <;> simp

/-- C3: in every execution of push_image the manifest PUT is the last
event of the transfer, it occurs nowhere earlier, and every blob
referenced by the manifest has been confirmed present (HEAD) — and, when
absent from the remote, uploaded (PUT of the blob) — strictly before the
manifest PUT. -/
theorem push_image_manifest_last (referenced remote : List Digest) :
    (push_image referenced remote).getLast? = some .putManifest ∧
    PushEvent.putManifest ∉ (push_image referenced remote).dropLast ∧
    ∀ d ∈ referenced,
      PushEvent.headBlob d ∈ (push_image referenced remote).dropLast ∧
      (d ∉ remote → PushEvent.putBlob d ∈ (push_image referenced remote).dropLast) := by
  have hdrop : (push_image referenced remote).dropLast =
      (referenced.map (pushBlobEvents remote)).flatten := by
    unfold push_image
    exact List.dropLast_concat
  refine ⟨?_, ?_, ?_⟩
  · unfold push_image
    exact List.getLast?_concat _
  · rw [hdrop]
    intro hmem
    obtain ⟨l, hl, hx⟩ := List.mem_flatten.1 hmem
    obtain ⟨d, _, hld⟩ := List.mem_map.1 hl
    rw [← hld] at hx
    exact putManifest_not_mem_pushBlobEvents remote d hx
  · intro d hd
    rw [hdrop]
    constructor
    · refine List.mem_flatten.2 ⟨pushBlobEvents remote d, List.mem_map_of_mem _ hd, ?_⟩
      unfold pushBlobEvents
      split <;> simp
    · intro hnr
      refine List.mem_flatten.2 ⟨pushBlobEvents remote d, List.mem_map_of_mem _ hd, ?_⟩
      unfold pushBlobEvents
      rw [if_neg hnr]
      simp

theorem push_image_manifest_last_witness :
    PushEvent.headBlob 5 ∈ (push_image [5] []).dropLast ∧
      PushEvent.putBlob 5 ∈ (push_image [5] []).dropLast ∧
      (push_image [5] []).getLast? = some .putManifest :=
  ⟨((push_image_manifest_last [5] []).2.2 5 (by decide)).1,
   ((push_image_manifest_last [5] []).2.2 5 (by decide)).2 (by decide),
   (push_image_manifest_last [5] []).1⟩

theorem parse_error_invalidName {s : String} {e : OcipkgError}
    (h : ImageName.parse s = .error e) : e = .invalidName := by
  unfold ImageName.parse at h
  split at h
  · cases h
    rfl
  · simp only at h
    split at h
    · cases h
    · cases h
      rfl

/-- C5: parsing the well-formed name registry.example.com/foo/bar:v1
succeeds with registry registry.example.com, repository foo/bar and tag
v1, while parsing the malformed name bad name (embedded space, no
registry component) fails with InvalidName. -/
theorem imageName_parse_examples :
    ImageName.parse "registry.example.com/foo/bar:v1" =
      .ok ⟨"registry.example.com", "foo/bar", .tag "v1"⟩ ∧
    ImageName.parse "bad name" = .error .invalidName := by
  constructor
  · rfl
  · rfl

/-- C7: image_dir is a deterministic function of the image name — equal
names give equal paths — and collision-free: distinct names give
distinct paths. -/
theorem image_dir_deterministic_collisionFree (n₁ n₂ : ImageName) :
    (n₁ = n₂ → image_dir n₁ = image_dir n₂) ∧
    (image_dir n₁ = image_dir n₂ → n₁ = n₂) := by
  constructor
  · intro h
    rw [h]
  · intro h
    cases n₁ with
    | mk r₁ p₁ f₁ =>
      cases n₂ with
      | mk r₂ p₂ f₂ =>
        simp only [image_dir] at h
        cases f₁ <;> cases f₂ <;> simp [refSegments] at h <;> simp_all

theorem build_eq (name : String) (cfg : Blob) (layers : List (List FileEntry)) :
    build name cfg layers =
      { layoutVersion := "1.0.0"
        index := ⟨[⟨descriptorOf .manifest
          (encManifest (buildManifestMulti cfg (layers.map encDir))), name⟩]⟩
        blobs := buildPoolMulti cfg (layers.map encDir)
          (encManifest (buildManifestMulti cfg (layers.map encDir))) } := by
  simp [build, buildPoolMulti, buildManifestMulti]

theorem buildPoolMulti_lookup_manifest (cfg : Blob) (lbs : List Blob) (mBlob : Blob) :
    lookupBlob (buildPoolMulti cfg lbs mBlob) (hash mBlob) = some mBlob :=
  lookupBlob_addBlob_self (poolWf_addBlob (poolWf_foldl poolWf_nil lbs) cfg) mBlob

theorem buildPoolMulti_lookup_cfg (cfg : Blob) (lbs : List Blob) (mBlob : Blob) :
    lookupBlob (buildPoolMulti cfg lbs mBlob) (hash cfg) = some cfg :=
  lookupBlob_mono_addBlob (lookupBlob_addBlob_self (poolWf_foldl poolWf_nil lbs) cfg) mBlob

theorem buildPoolMulti_lookup_layer (cfg : Blob) {lbs : List Blob} (mBlob : Blob)
    {lb : Blob} (hb : lb ∈ lbs) :
    lookupBlob (buildPoolMulti cfg lbs mBlob) (hash lb) = some lb :=
  lookupBlob_mono_addBlob
    (lookupBlob_mono_addBlob (lookupBlob_foldl_mem poolWf_nil hb) cfg) mBlob

theorem buildPoolMulti_nodupKeys (cfg : Blob) (lbs : List Blob) (mBlob : Blob) :
    ((buildPoolMulti cfg lbs mBlob).map Prod.fst).Nodup :=
  nodupKeys_addBlob (nodupKeys_addBlob (nodupKeys_foldl (by simp) lbs) cfg) mBlob

/-- C6: for every input, the built archive is a valid OCI layout — the
oci-layout file carries version 1.0.0, index.json is present and each of
its entries resolves, meaning the manifest blob and every blob it
references (config and all layers) have a blob entry — and no digest has
more than one blob entry, even when two layers are byte-identical. -/
theorem build_valid_oci_layout (name : String) (cfg : Blob) (layers : List (List FileEntry)) :
    (build name cfg layers).layoutVersion = "1.0.0" ∧
    (∀ e ∈ (build name cfg layers).index.manifests,
      entryResolves (build name cfg layers).blobs e = true) ∧
    ((build name cfg layers).blobs.map Prod.fst).Nodup := by
  rw [build_eq]
  refine ⟨rfl, ?_, buildPoolMulti_nodupKeys _ _ _⟩
  intro e he
  have he' : e = ⟨descriptorOf .manifest
      (encManifest (buildManifestMulti cfg (layers.map encDir))), name⟩ := by
    simpa using he
  subst he'
  refine @entryResolves_of _ _
    (encManifest (buildManifestMulti cfg (layers.map encDir)))
    (buildManifestMulti cfg (layers.map encDir))
    ?_ (decManifest_encManifest _) ?_
  · exact buildPoolMulti_lookup_manifest cfg _ _
  · refine manifestComplete_of_lookups ?_ ?_
    · show (lookupBlob _ (hash cfg)).isSome
      rw [buildPoolMulti_lookup_cfg]
      rfl
    · intro l hl
      simp only [buildManifestMulti] at hl
      obtain ⟨lb, hlb, rfl⟩ := List.mem_map.1 hl
      show (lookupBlob _ (hash lb)).isSome
      rw [buildPoolMulti_lookup_layer cfg _ hlb]
      rfl

theorem build_valid_oci_layout_witness :
    entryResolves
      (build "n" [] [[⟨[1], [2], 0⟩], [⟨[1], [2], 0⟩]]).blobs
      ⟨descriptorOf .manifest
        (encManifest (buildManifestMulti []
          ([[⟨[1], [2], 0⟩], [⟨[1], [2], 0⟩]].map encDir))), "n"⟩ = true ∧
    ((build "n" [] [[⟨[1], [2], 0⟩], [⟨[1], [2], 0⟩]]).blobs.map Prod.fst).Nodup :=
  ⟨(build_valid_oci_layout "n" [] [[⟨[1], [2], 0⟩], [⟨[1], [2], 0⟩]]).2.1 _ (by decide),
   (build_valid_oci_layout "n" [] [[⟨[1], [2], 0⟩], [⟨[1], [2], 0⟩]]).2.2⟩

theorem image_dir_deterministic_collisionFree_witness :
    image_dir ⟨"registry.example.com", "foo/bar", .tag "v1"⟩ =
      image_dir ⟨"registry.example.com", "foo/bar", .tag "v1"⟩ ∧
    (⟨"registry.example.com", "foo/bar", .tag "v1"⟩ : ImageName) =
      ⟨"registry.example.com", "foo/bar", .tag "v1"⟩ :=
  ⟨(image_dir_deterministic_collisionFree _ _).1 rfl,
   (image_dir_deterministic_collisionFree
      ⟨"registry.example.com", "foo/bar", .tag "v1"⟩
      ⟨"registry.example.com", "foo/bar", .tag "v1"⟩).2 rfl⟩

/-- C4 counterexample: with the destination already existing, pack does
not fail with the AlreadyExists error value — it aborts with a process
panic carrying the message Output already exists. -/
theorem pack_alreadyExists_counterexample :
    pack (fun p => p = ⟨[], "out.tar"⟩) true true none ⟨[], "out.tar"⟩ ≠
      .failed .alreadyExists ∧
    pack (fun p => p = ⟨[], "out.tar"⟩) true true none ⟨[], "out.tar"⟩ =
      .panicked "Output already exists: out.tar" := by
  constructor
  · decide
  · decide

/-- C4 (amended): when the destination output path (after the extension
rewrite) already exists, pack refuses to overwrite it and aborts by
panicking with Output already exists rather than returning an
AlreadyExists error; an invalid tag fails with InvalidName; a missing or
unreadable input path, and a failing file creation, fail with IoError. -/
theorem pack_error_behavior (ex : RPath → Bool) (co inp : Bool)
    (tag : Option String) (out : RPath) :
    (ex (setExtension out "tar") = true →
      pack ex co inp tag out =
        .panicked ("Output already exists: " ++ display (setExtension out "tar"))) ∧
    (∀ t, ex (setExtension out "tar") = false → co = true → tag = some t →
      (∃ e, ImageName.parse t = .error e) →
      pack ex co inp tag out = .failed .invalidName) ∧
    (ex (setExtension out "tar") = false → co = true → tag = none → inp = false →
      pack ex co inp tag out = .failed .ioError) ∧
    (ex (setExtension out "tar") = false → co = false →
      pack ex co inp tag out = .failed .ioError) := by
  refine ⟨?_, ?_, ?_, ?_⟩
  · intro hex
    simp [pack, hex]
  · intro t hex hco htag hparse
    obtain ⟨e, he⟩ := hparse
    have := parse_error_invalidName he
    subst this
    subst htag
    subst hco
    simp [pack, hex, he]
  · intro hex hco htag hinp
    subst htag
    subst hco
    subst hinp
    simp [pack, hex]
  · intro hex hco
    subst hco
    simp [pack, hex]

theorem pack_error_behavior_witness :
    pack (fun p => p = ⟨[], "out.tar"⟩) true true none ⟨[], "out.tar"⟩ =
      .panicked ("Output already exists: " ++
        display (setExtension ⟨[], "out.tar"⟩ "tar")) ∧
    pack (fun _ => false) true true (some "bad name") ⟨[], "x"⟩ =
      .failed .invalidName :=
  ⟨(pack_error_behavior (fun p => p = ⟨[], "out.tar"⟩) true true none
      ⟨[], "out.tar"⟩).1 (by decide),
   (pack_error_behavior (fun _ => false) true true (some "bad name")
      ⟨[], "x"⟩).2.1 "bad name" rfl rfl rfl ⟨.invalidName, rfl⟩⟩

/-- C8: pack rewrites the output path's extension to tar before the
existence check and the file creation: the panic fires exactly when the
rewritten path exists, the created file is always the rewritten path,
and for example an argument out.tgz is rewritten to out.tar. -/
theorem pack_checks_rewritten_path (ex : RPath → Bool) (co inp : Bool)
    (tag : Option String) (out : RPath) :
    isAbort (pack ex co inp tag out) = ex (setExtension out "tar") ∧
    (∀ q, pack ex co inp tag out = .ok q → q = setExtension out "tar") ∧
    setExtension ⟨[], "out.tgz"⟩ "tar" = ⟨[], "out.tar"⟩ := by
  refine ⟨?_, ?_, by decide⟩
  · by_cases hex : ex (setExtension out "tar") = true
    · simp [pack, hex, isAbort]
    · rw [Bool.not_eq_true] at hex
      rw [hex]
      rcases co with _ | _
      · simp [pack, hex, isAbort]
      · rcases tag with _ | t
        · rcases inp with _ | _ <;> simp [pack, hex, isAbort]
        · rcases hp : ImageName.parse t with e | n <;>
            rcases inp with _ | _ <;> simp [pack, hex, hp, isAbort]
  · intro q hq
    by_cases hex : ex (setExtension out "tar") = true
    · simp [pack, hex] at hq
    · rw [Bool.not_eq_true] at hex
      rcases co with _ | _
      · simp [pack, hex] at hq
      · rcases tag with _ | t
        · rcases inp with _ | _ <;> simp [pack, hex] at hq
          exact hq.symm
        · rcases hp : ImageName.parse t with e | n <;>
            rcases inp with _ | _ <;> simp [pack, hex, hp] at hq
          exact hq.symm

theorem pack_checks_rewritten_path_witness :
    (⟨[], "o.tar"⟩ : RPath) = setExtension ⟨[], "o.tgz"⟩ "tar" ∧
    isAbort (pack (fun _ => false) true true none ⟨[], "o.tgz"⟩) = false :=
  ⟨(pack_checks_rewritten_path (fun _ => false) true true none
      ⟨[], "o.tgz"⟩).2.1 ⟨[], "o.tar"⟩ (by decide),
   (pack_checks_rewritten_path (fun _ => false) true true none ⟨[], "o.tgz"⟩).1⟩

theorem foldl_targetStep_skip (bd : List String) (nm : String)
    {l : List String} (acc : List RPath)
    (h : ∀ ty ∈ l, ty ≠ "staticlib" ∧ ty ≠ "cdylib") :
    l.foldl (targetStep bd nm) acc = acc := by
  induction l generalizing acc with
  | nil => rfl
  | cons ty rest ih =>
    have hty := h ty (by simp)
    rw [List.foldl_cons]
    rw [show targetStep bd nm acc ty = acc by
      unfold targetStep
      rw [if_neg hty.1, if_neg hty.2]]
    exact ih acc fun x hx => h x (by simp [hx])

theorem foldl_targetStep_filter (bd : List String) (nm : String)
    (l : List String) (acc : List RPath) :
    (l.filter fun ty => ty = "staticlib" || ty = "cdylib").foldl
      (targetStep bd nm) acc = l.foldl (targetStep bd nm) acc := by
  induction l generalizing acc with
  | nil => rfl
  | cons ty rest ih =>
    by_cases hs : ty = "staticlib"
    · simp only [List.filter_cons, hs]
      simp only [List.foldl_cons]
      exact ih _
    · by_cases hc : ty = "cdylib"
      · simp only [List.filter_cons, hc]
        simp only [List.foldl_cons]
        exact ih _
      · have hstep : targetStep bd nm acc ty = acc := by
          unfold targetStep
          rw [if_neg hs, if_neg hc]
        have hp : (decide (ty = "staticlib") || decide (ty = "cdylib")) = false := by
          simp [hs, hc]
        simp only [List.filter_cons, hp, if_false, Bool.false_eq_true]
        rw [List.foldl_cons, hstep]
        exact ih acc

/-- C9: a target none of whose crate types is staticlib or cdylib makes
cargo-ocipkg build panic with No target exists for packing, rather than
return an error value; crate types other than those two are silently
skipped when collecting the files to pack (filtering them away leaves
the collected file list unchanged). -/
theorem processTarget_panics_without_lib_targets (bd : List String) (t : Target) :
    ((∀ ty ∈ t.crate_types, ty ≠ "staticlib" ∧ ty ≠ "cdylib") →
      processTarget bd t =
        .panicked "No target exists for packing. Only staticlib or cdylib are suppoted.") ∧
    targetFiles bd ⟨t.name, t.crate_types.filter fun ty => ty = "staticlib" || ty = "cdylib"⟩ =
      targetFiles bd t := by
  constructor
  · intro h
    unfold processTarget
    rw [show targetFiles bd t = [] from foldl_targetStep_skip bd t.name [] h]
    rfl
  · unfold targetFiles
    exact foldl_targetStep_filter bd t.name t.crate_types []

theorem processTarget_panics_without_lib_targets_witness :
    processTarget [] ⟨"my-lib", ["bin", "rlib"]⟩ =
      .panicked "No target exists for packing. Only staticlib or cdylib are suppoted." :=
  (processTarget_panics_without_lib_targets [] ⟨"my-lib", ["bin", "rlib"]⟩).1
    (by decide)

/-- C10: package selection gives the package-name option priority over
the current directory: a supplied name matching a workspace package
returns that (first matching) package, which indeed bears the requested
name; otherwise the root package is returned when it exists; when
neither applies the process panics with Target package is not
specified. -/
theorem get_package_priority (m : Metadata) (pn : Option String) :
    (∀ n p, pn = some n →
      (m.workspacePackages.find? fun q => q.name = n) = some p →
      get_package m pn = .pkg p ∧ p.name = n ∧ p ∈ m.workspacePackages) ∧
    ((pn = none ∨ ∃ n, pn = some n ∧
        (m.workspacePackages.find? fun q => q.name = n) = none) →
      ∀ p, m.rootPackage = some p → get_package m pn = .pkg p) ∧
    ((pn = none ∨ ∃ n, pn = some n ∧
        (m.workspacePackages.find? fun q => q.name = n) = none) →
      m.rootPackage = none →
      get_package m pn = .panicked "Target package is not specified.") := by
  refine ⟨?_, ?_, ?_⟩
  · intro n p hpn hfind
    subst hpn
    refine ⟨by simp [get_package, hfind], ?_, List.mem_of_find?_eq_some hfind⟩
    have := List.find?_some hfind
    simpa using this
  · intro hcase p hroot
    rcases hcase with h | ⟨n, hpn, hfind⟩
    · subst h
      simp [get_package, hroot]
    · subst hpn
      simp [get_package, hfind, hroot]
  · intro hcase hroot
    rcases hcase with h | ⟨n, hpn, hfind⟩
    · subst h
      simp [get_package, hroot]
    · subst hpn
      simp [get_package, hfind, hroot]

theorem get_package_priority_witness :
    get_package ⟨[⟨"a"⟩, ⟨"b"⟩], some ⟨"r"⟩⟩ (some "b") = .pkg ⟨"b"⟩ ∧
    get_package ⟨[⟨"a"⟩, ⟨"b"⟩], some ⟨"r"⟩⟩ (some "z") = .pkg ⟨"r"⟩ ∧
    get_package ⟨[⟨"a"⟩], none⟩ none = .panicked "Target package is not specified." :=
  ⟨((get_package_priority ⟨[⟨"a"⟩, ⟨"b"⟩], some ⟨"r"⟩⟩ (some "b")).1
      "b" ⟨"b"⟩ rfl (by decide)).1,
   (get_package_priority ⟨[⟨"a"⟩, ⟨"b"⟩], some ⟨"r"⟩⟩ (some "z")).2.1
      (Or.inr ⟨"z", rfl, by decide⟩) ⟨"r"⟩ rfl,
   (get_package_priority ⟨[⟨"a"⟩], none⟩ none).2.2 (Or.inl rfl) rfl⟩

end Ocipkg

